import Mathlib

/-!
Verification of the csv-sniffer library (MonetDBSolutions/npm-csv-sniffer).

This file gives a shallow embedding of the sniffer's core: newline detection,
the pattern-based quote/delimiter guesser, the frequency-based delimiter
guesser, the quote-aware sample parser, the column type accumulation lattice,
the header vote, and the `sniff` orchestrator, all translated from the
JavaScript source.  JavaScript numbers are modelled by exact rationals `ℚ`
(the library's arithmetic is statistical scoring; NaN/Infinity corner cases
are modelled explicitly where they are reachable and noted in comments).
Strings are Lean `String`s, processed as their underlying `List Char`.
`null`/`undefined`-valued option fields are modelled with `Option`.
-/

/-! ## Generic string helpers (JavaScript `indexOf`/`split` semantics) -/

/-- `isPfx p l` is true when `p` is an initial segment of `l`. -/
def isPfx : List Char → List Char → Bool
  | [], _ => true
  | _ :: _, [] => false
  | a :: as, b :: bs => a = b && isPfx as bs

/-- Worker for `jsSplit`: scan `l`, cutting at each leftmost, non-overlapping
occurrence of the (nonempty) separator `sep`; `acc` holds the current part in
reverse.  This mirrors the JavaScript `indexOf`-advance loops in the source.
The scan is structurally recursive on a fuel counter so that it reduces in
the kernel; `jsSplit` supplies `l.length` fuel, and every step consumes at
least one character and exactly one unit of fuel, so the fuel never runs out
(the fuel-exhausted arm returns the same value the scan would: with no fuel
no separator can be consumed, leaving one final part). -/
def jsSplitGo (sep : List Char) : Nat → List Char → List Char → List (List Char)
  | _, acc, [] => [acc.reverse]
  | 0, acc, l => [acc.reverse ++ l]
  | fuel + 1, acc, c :: rest =>
    if isPfx sep (c :: rest) then
      acc.reverse :: jsSplitGo sep fuel [] (List.drop (sep.length - 1) rest)
    else
      jsSplitGo sep fuel (c :: acc) rest

/-- JavaScript `String.prototype.split` on a string separator: for a nonempty
separator, split at leftmost non-overlapping occurrences; for the empty
separator, split into single characters. -/
def jsSplit (sep : List Char) (s : List Char) : List (List Char) :=
  if sep = [] then s.map (fun c => [c]) else jsSplitGo sep s.length [] s

/-! ## JavaScript string-to-number coercion

The source relies on the global `isFinite(value)` and on `value % 1 !== 0`,
both of which coerce the field string to a number (ECMAScript `ToNumber`).
We model the result exactly: trimmed empty strings give `0`, `Infinity` forms
give infinities, decimal/hex/octal/binary literals give their rational value,
everything else gives NaN.  (IEEE-754 rounding of decimal literals is ignored:
values are kept as exact rationals.) -/

/-- The whitespace characters trimmed by `ToNumber` (ASCII subset plus NBSP). -/
def isJsWs (c : Char) : Bool :=
  c = ' ' || c = '\t' || c = '\n' || c = '\r' || c = '\x0b' || c = '\x0c' || c = '\xa0'

/-- Trim leading and trailing JavaScript whitespace. -/
def jsTrim (l : List Char) : List Char :=
  ((l.dropWhile isJsWs).reverse.dropWhile isJsWs).reverse

def isDigitCh (c : Char) : Bool := '0' ≤ c && c ≤ '9'

def digitVal (c : Char) : Nat := c.toNat - '0'.toNat

def digitsToNat (l : List Char) : Nat := l.foldl (fun a c => 10 * a + digitVal c) 0

def isHexDigitCh (c : Char) : Bool :=
  isDigitCh c || ('a' ≤ c && c ≤ 'f') || ('A' ≤ c && c ≤ 'F')

def hexDigitVal (c : Char) : Nat :=
  if isDigitCh c then digitVal c
  else if 'a' ≤ c && c ≤ 'f' then c.toNat - 'a'.toNat + 10
  else c.toNat - 'A'.toNat + 10

def hexToNat (l : List Char) : Nat := l.foldl (fun a c => 16 * a + hexDigitVal c) 0

def isOctDigitCh (c : Char) : Bool := '0' ≤ c && c ≤ '7'

def octToNat (l : List Char) : Nat := l.foldl (fun a c => 8 * a + digitVal c) 0

def isBinDigitCh (c : Char) : Bool := c = '0' || c = '1'

def binToNat (l : List Char) : Nat := l.foldl (fun a c => 2 * a + digitVal c) 0

/-- Exponent part of a decimal literal (the characters after `e`/`E`). -/
def parseExpPart (l : List Char) : Option Int :=
  match l with
  | '+' :: ds => if ds ≠ [] && ds.all isDigitCh then some (digitsToNat ds : Int) else none
  | '-' :: ds => if ds ≠ [] && ds.all isDigitCh then some (-(digitsToNat ds : Int)) else none
  | ds => if ds ≠ [] && ds.all isDigitCh then some (digitsToNat ds : Int) else none

/-- Unsigned decimal literal: `digits [. digits] [exp]` or `. digits [exp]`.
Returns its exact rational value, or `none` when the string is not a number. -/
def parseUnsignedDecimal (l : List Char) : Option ℚ :=
  let ip := l.takeWhile isDigitCh
  let rest1 := l.dropWhile isDigitCh
  match rest1 with
  | [] => if ip = [] then none else some (digitsToNat ip : ℚ)
  | '.' :: rest2 =>
    let fp := rest2.takeWhile isDigitCh
    let rest3 := rest2.dropWhile isDigitCh
    if ip = [] && fp = [] then none
    else
      let mant : ℚ := (digitsToNat ip : ℚ) + (digitsToNat fp : ℚ) / ((10 : ℚ) ^ fp.length)
      match rest3 with
      | [] => some mant
      | e :: rest4 =>
        if e = 'e' || e = 'E' then (parseExpPart rest4).map (fun ex => mant * (10 : ℚ) ^ ex)
        else none
  | e :: rest2 =>
    if (e = 'e' || e = 'E') && ip ≠ [] then
      (parseExpPart rest2).map (fun ex => (digitsToNat ip : ℚ) * (10 : ℚ) ^ ex)
    else none

/-- The value classes of a JavaScript number that matter to the sniffer. -/
inductive JSNum where
  | nan : JSNum
  | inf : Bool → JSNum
  | fin : ℚ → JSNum
deriving DecidableEq

/-- ECMAScript `ToNumber` on a string. -/
def jsToNumber (s : String) : JSNum :=
  let t := jsTrim s.data
  match t with
  | [] => .fin 0
  | _ =>
    let sign : Option Bool :=
      match t with
      | '+' :: _ => some false
      | '-' :: _ => some true
      | _ => none
    let body : List Char :=
      match t with
      | '+' :: r => r
      | '-' :: r => r
      | r => r
    let neg := sign = some true
    if body = "Infinity".data then .inf neg
    else
      match sign, body with
      | none, '0' :: x :: ds =>
        if (x = 'x' || x = 'X') && ds ≠ [] && ds.all isHexDigitCh then .fin (hexToNat ds : ℚ)
        else if (x = 'o' || x = 'O') && ds ≠ [] && ds.all isOctDigitCh then .fin (octToNat ds : ℚ)
        else if (x = 'b' || x = 'B') && ds ≠ [] && ds.all isBinDigitCh then .fin (binToNat ds : ℚ)
        else
          match parseUnsignedDecimal body with
          | some q => .fin q
          | none => .nan
      | _, _ =>
        match parseUnsignedDecimal body with
        | some q => .fin (if neg then -q else q)
        | none => .nan

/-! ## The type lattice and `getAccumulatedType` -/

/-- Column scalar types, ordered `integer < float < string`. -/
inductive TypeTag where
  | integer : TypeTag
  | float : TypeTag
  | string : TypeTag
deriving DecidableEq

/-- Position of a tag in the lattice `integer < float < string`. -/
def TypeTag.rank : TypeTag → Nat
  | .integer => 0
  | .float => 1
  | .string => 2

/-- `getAccumulatedType(curValue, curType)` from the source: a value forces
`string` when the accumulated type is already `string` or the value is not a
finite number; forces `float` when the accumulated type is already `float` or
the value has a nonzero fractional part (`curValue % 1 !== 0`, i.e. the
rational is not an integer); otherwise stays `integer`. -/
def getAccumulatedType (curValue : String) (curType : TypeTag) : TypeTag :=
  if curType = .string then .string
  else
    match jsToNumber curValue with
    | .fin q => if curType = .float || ¬ (q.den = 1) then .float else .integer
    | _ => .string

/-! ## Newline detection (`getNewlineStr`) -/

/-- Mean-absolute-deviation score for one surviving newline candidate, used in
the final round of `getNewlineStr`: the average absolute deviation of the
induced line lengths, normalized by the line count and by the average length.
Returns `none` when the average length is `0`: in the source the score is then
NaN (or Infinity), which never wins a `<` comparison and is thus skipped. -/
def newlineScore (sample : List Char) (cand : String) : Option ℚ :=
  let l := ((jsSplit cand.data sample).dropLast).map (fun part => (part.length : ℚ))
  let n : ℚ := (l.length : ℚ)
  let avg := l.sum / n
  if avg = 0 then none else some ((l.map (fun d => |d - avg|)).sum / n / avg)

/-- `getNewlineStr(sample)`: count the lines each candidate terminator
(`\r\n`, `\n\r`, `\n`, `\r`) would induce; discard a one-character candidate
whose line count equals that of a two-character candidate with more than one
line (substring elimination, applied sequentially for `\r\n` then `\n\r`);
keep candidates with more than one line; then apply the single-winner /
threshold / deviation-score decision chain of the source. -/
def getNewlineStr (sample : String) : Option String :=
  let s := sample.data
  let nRN := (jsSplit ['\r', '\n'] s).length
  let nNR := (jsSplit ['\n', '\r'] s).length
  let nN0 := (jsSplit ['\n'] s).length
  let nR0 := (jsSplit ['\r'] s).length
  let nN1 := if nRN > 1 && nN0 = nRN then 1 else nN0
  let nR1 := if nRN > 1 && nR0 = nRN then 1 else nR0
  let nN2 := if nNR > 1 && nN1 = nNR then 1 else nN1
  let nR2 := if nNR > 1 && nR1 = nNR then 1 else nR1
  let cands : List (String × Nat) := [("\r\n", nRN), ("\n\r", nNR), ("\n", nN2), ("\r", nR2)]
  let remaining := cands.filter (fun p => p.2 > 1)
  match remaining with
  | [] => none
  | [p] => some p.1
  | _ =>
    let maxNrLines := remaining.foldl (fun m p => max m p.2) 0
    let finalRemainers := remaining.filter (fun p => p.2 > 5)
    match finalRemainers with
    | [] => (remaining.find? (fun p => p.2 = maxNrLines)).map (fun p => p.1)
    | [p] => some p.1
    | final =>
      (final.foldl
        (fun (acc : Option String × Option ℚ) p =>
          match newlineScore s p.1 with
          | none => acc
          | some sc =>
            match acc.2 with
            | none => (some p.1, some sc)
            | some best => if sc < best then (some p.1, some sc) else acc)
        (none, none)).1

/-! ## The quote-aware sample parser (`parseSample`) -/

/-- The quoted-path state machine of `parseSample`, instrumented: besides the
rows (lists of fields), each emitted row also records the number of
unescaped, unquoted delimiter characters consumed for it (`k`) and whether
the field closed at the row's newline was completely empty (`lastEmpty`, in
which case the source pops it off the row).  The scan follows the source
exactly: an escape flag covers exactly the next character; an unescaped quote
character toggles `insideQuotes` and is dropped; outside quotes a position
where the newline string starts closes the row (the scan then resumes at the
following character, so the remaining characters of a multi-character newline
string flow into the next row, as in the source); otherwise a delimiter match
closes the field.  Anything left unterminated at the end of input is
discarded. -/
def parseQuotedAuxI (nl : List Char) (delimiter : Option String) (q : String) :
    List Char → List String → List Char → Nat → Bool → Bool →
    List (List String × Nat × Bool)
  | [], _, _, _, _, _ => []
  | c :: rest, vals, curVal, k, insideQuotes, escape =>
    if escape then
      parseQuotedAuxI nl delimiter q rest vals (curVal ++ [c]) k insideQuotes false
    else if c = '\\' then
      parseQuotedAuxI nl delimiter q rest vals curVal k insideQuotes true
    else if String.singleton c = q then
      parseQuotedAuxI nl delimiter q rest vals curVal k (!insideQuotes) false
    else if !insideQuotes && isPfx nl (c :: rest) then
      let lastEmpty := curVal = []
      let row := if lastEmpty then vals else vals ++ [(⟨curVal⟩ : String)]
      (row, k, lastEmpty) :: parseQuotedAuxI nl delimiter q rest [] [] 0 insideQuotes false
    else if !insideQuotes &&
        (match delimiter with | some d => String.singleton c = d | none => false) then
      parseQuotedAuxI nl delimiter q rest (vals ++ [(⟨curVal⟩ : String)]) [] (k + 1) insideQuotes false
    else
      parseQuotedAuxI nl delimiter q rest vals (curVal ++ [c]) k insideQuotes false

/-- Instrumented quoted-path parse of a whole sample, from the initial state. -/
def parseSampleI (sample newlineStr : String) (delimiter : Option String) (q : String) :
    List (List String × Nat × Bool) :=
  parseQuotedAuxI newlineStr.data delimiter q sample.data [] [] 0 false false

/-- The no-quote path of `parseSample`: split the sample on the newline
string, pop the final (possibly incomplete) fragment when more than one line
resulted, then split each line on the delimiter.  A `null` delimiter is
coerced by JavaScript `split` to the four-character string `"null"`. -/
def parseNoQuote (sample newlineStr : String) (delimiter : Option String) : List (List String) :=
  let lines0 := jsSplit newlineStr.data sample.data
  let lines := if lines0.length > 1 then lines0.dropLast else lines0
  lines.map (fun line =>
    (jsSplit (match delimiter with | none => "null".data | some d => d.data) line).map
      (fun p => (⟨p⟩ : String)))

/-- `parseSample(sample, newlineStr, delimiter, quotechar)`: the no-quote path
when the quote character is falsy (`null` or the empty string), otherwise the
quote-aware state machine (the rows of the instrumented scan). -/
def parseSample (sample newlineStr : String) (delimiter : Option String)
    (quotechar : Option String) : List (List String) :=
  match quotechar with
  | none => parseNoQuote sample newlineStr delimiter
  | some q =>
    if q = "" then parseNoQuote sample newlineStr delimiter
    else (parseSampleI sample newlineStr delimiter q).map (fun x => x.1)

/-! ## Column type profiles (`getTypes`) -/

/-- The three per-column type profiles returned by `getTypes`. -/
structure TypeProfiles where
  first : List TypeTag
  tail : List TypeTag
  all : List TypeTag
deriving DecidableEq

/-- `getTypes(parsedSample)`: `first` is row 0's per-value type; `tail`
accumulates over rows 1.. (skipping rows whose field count differs from
row 0's); `all` is `tail` further weakened by folding in row 0's values.
When the parsed sample is empty all three profiles are empty (in the source
`firstValues` stays `null` and the loops do nothing). -/
def getTypes (parsedSample : List (List String)) : TypeProfiles :=
  match parsedSample with
  | [] => ⟨[], [], []⟩
  | firstValues :: rest =>
    let first := firstValues.map (fun col => getAccumulatedType col .integer)
    let tailTypes := rest.foldl
      (fun acc cols =>
        if cols.length ≠ first.length then acc
        else List.zipWith (fun t col => getAccumulatedType col t) acc cols)
      (firstValues.map (fun _ => TypeTag.integer))
    let allTypes := List.zipWith (fun t col => getAccumulatedType col t) tailTypes firstValues
    ⟨first, tailTypes, allTypes⟩

/-! ## Header vote (`hasHeader`) -/

/-- Result of the `hasHeader` function: the chosen type profile and the vote
outcome. -/
structure HeaderData where
  types : List TypeTag
  hasHeader : Bool
deriving DecidableEq

/-- The tail field-lengths of column `i`: the length of field `i` of every
row after row 0 whose field count equals row 0's. -/
def colTailLengths (firstValues : List String) (rest : List (List String)) (i : Nat) :
    List Nat :=
  (rest.filter (fun r => r.length = firstValues.length)).map (fun r => (r.getD i "").length)

/-- `hasHeader(parsedSample)`: each column of row 0 votes +2 when its
first-row type differs from its tail type and the first-row type is string;
otherwise ±1 by comparing the header field length against the mean of the
column's tail field-lengths with tolerance `2 × variance` (the source calls
the variance `sd`).  When a column has no tail lengths the mean and variance
are NaN in the source and the comparison is false, voting −1; we branch on
that case explicitly.  `hasHeader` is `vote > 0`; the reported types are the
`tail` profile when a header was detected, else the `all` profile. -/
def hasHeader (parsedSample : List (List String)) : HeaderData :=
  match parsedSample with
  | [] => ⟨(getTypes []).all, false⟩
  | firstValues :: rest =>
    let types := getTypes (firstValues :: rest)
    let vote : Int := (List.range firstValues.length).foldl
      (fun v i =>
        if types.first.getD i .integer ≠ types.tail.getD i .integer ∧
            types.first.getD i .integer = .string then
          v + 2
        else
          let lens := colTailLengths firstValues rest i
          if lens.length = 0 then v - 1
          else
            let avg : ℚ := (lens.map (fun d => (d : ℚ))).sum / (lens.length : ℚ)
            let sd : ℚ :=
              (lens.map (fun d => (avg - (d : ℚ)) * (avg - (d : ℚ)))).sum / (lens.length : ℚ)
            let tolerance := 2 * sd
            if |((firstValues.getD i "").length : ℚ) - avg| > tolerance then v + 1 else v - 1)
      0
    let hH := vote > 0
    ⟨if hH then types.tail else types.all, hH⟩

/-! ## Frequency-based delimiter guesser (`guessDelimiter`) -/

/-- Per-line occurrence counts of the character with code `i` (the source
builds one 127-slot ASCII table per line; characters with code ≥ 127 fall
outside the table and are never consulted). -/
def gdCounts (lines : List (List Char)) (i : Nat) : List Nat :=
  lines.map (fun line => (line.filter (fun c => c.toNat = i)).length)

/-- The meta-frequency table of a list of per-line counts: for each occurring
count value `k` (in ascending order, matching JavaScript array iteration over
integer keys), the number of lines with exactly `k` occurrences. -/
def gdFreqTable (ks : List Nat) : List (Nat × Nat) :=
  (List.range (ks.foldl max 0 + 1)).filterMap (fun k =>
    let mf := (ks.filter (fun x => x = k)).length
    if mf = 0 then none else some (k, mf))

/-- The character modes: for every code below 127 whose character occurs on at
least one line, the per-line count with the highest meta-frequency (`maxFreq`,
first such count on ties) and the mode `2·maxMeta − sum` of the source. -/
def gdModes (lines : List (List Char)) : List (Nat × Nat × Int) :=
  (List.range 127).filterMap (fun i =>
    let ks := gdCounts lines i
    if ks.all (fun x => x = 0) then none
    else
      let ft := gdFreqTable ks
      let best := ft.foldl
        (fun (acc : Option (Nat × Nat)) p =>
          match acc with
          | none => some p
          | some b => if p.2 > b.2 then some p else acc)
        none
      let maxFreq := (best.map (fun p => p.1)).getD 0
      let maxMeta : Int := ((best.map (fun p => p.2)).getD 0 : Nat)
      let s : Int := ((ft.map (fun p => p.2)).sum : Nat)
      some (i, maxFreq, maxMeta - (s - maxMeta)))

/-- One round of the consistency loop: the candidate delimiters whose mode,
normalized by the line count, reaches `1 − k/100`, filtered by the allowed
delimiter set.  Characters whose most common per-line count is 0 or whose
mode is nonpositive are skipped. -/
def gdRound (modes : List (Nat × Nat × Int)) (nrLines : Nat)
    (delimiters : Option (List Char)) (k : Nat) : List Char :=
  modes.filterMap (fun m =>
    if m.2.1 = 0 ∨ m.2.2 ≤ 0 then none
    else
      let delim := Char.ofNat m.1
      if ((m.2.2 : ℚ) / (nrLines : ℚ) ≥ 1 - (k : ℚ) / 100) &&
          (match delimiters with | none => true | some ds => ds.contains delim) then
        some delim
      else none)

/-- The consistency loop: starting at consistency 1.0 and relaxing by 0.01
per empty round, stop at the first nonempty candidate list; give up (empty
list) once the consistency would drop to the 0.8 threshold, i.e. after the
round at `1 − 19/100 = 0.81`.  (The float subtractions of the source are
modelled as exact rationals.) -/
def gdDelims (modes : List (Nat × Nat × Int)) (nrLines : Nat)
    (delimiters : Option (List Char)) : List Char :=
  (((List.range 20).map (gdRound modes nrLines delimiters)).find?
    (fun l => l ≠ [])).getD []

/-- `guessDelimiter(sample, newlineStr, delimiters)`: build the per-line
character statistics over the complete lines of the sample and return the
first candidate of the first nonempty consistency round.  The source then
iterates a preference list `[",", "\t", ";", " ", ":", "|"]` of known
delimiters, but the `return` inside `forEach` only exits the callback, so
that loop has no effect and the first candidate in scan order is always
returned. -/
def guessDelimiter (sample newlineStr : String) (delimiters : Option (List Char)) :
    Option Char :=
  let lines := (jsSplit newlineStr.data sample.data).dropLast
  let nrLines := lines.length
  if nrLines = 0 then none
  else
    let delims := gdDelims (gdModes lines) nrLines delimiters
    match delims with
    | [] => none
    | [d] => some d
    | d :: _ :: _ => some d

/-! ## Pattern-based quote and delimiter guesser (`guessQuoteAndDelimiter`)

The source builds four regular expressions over the sample and runs them with
the `g` flag, keeping the matches of the first expression that matches at
all.  The expressions use only single-character classes, lazy stars over
classes, two single-character capturing groups with backreferences, and the
anchors `^`/`$` (the expressions are compiled without the `m` flag, so the
anchors assert the start and end of the whole sample).  We embed exactly that
fragment: a token-list matcher with JavaScript's backtracking order (lazy
stars prefer zero width) and a scanner reproducing `exec`'s `lastIndex`
advancement. -/

/-- Regex tokens for the guesser's expressions.  `cls neg cs cap` is a
single-character class (`neg` for a negated class), capturing into group
`cap` (0 = non-capturing); `star` is a lazy star over a class; `bref` is a
backreference to a single-character group; `atEnd` is the `$` anchor. -/
inductive RTok where
  | cls : Bool → List Char → Nat → RTok
  | star : Bool → List Char → RTok
  | bref : Nat → RTok
  | atEnd : RTok

/-- Membership test of a character in a (possibly negated) class. -/
def classOk (neg : Bool) (cs : List Char) (c : Char) : Bool :=
  if neg then !(cs.contains c) else cs.contains c

/-- Store a capture (groups 1 and 2 are the only ones used). -/
def setCap (i : Nat) (c : Char) (cp : Option Char × Option Char) :
    Option Char × Option Char :=
  if i = 1 then (some c, cp.2) else if i = 2 then (cp.1, some c) else cp

/-- Read a capture. -/
def getCap (i : Nat) (cp : Option Char × Option Char) : Option Char :=
  if i = 1 then cp.1 else if i = 2 then cp.2 else none

/-- Backtracking matcher for a token list against an input suffix, returning
the number of consumed characters and the captures of the first success in
JavaScript's backtracking order.  A backreference to a group that has not
captured matches the empty string, as in JavaScript.
Every recursive call either consumes an input character or shortens the token
list while keeping the input, so the recursion depth is bounded by
`(s.length + 1) * (toks.length + 1)`; the function is structurally recursive
on a fuel counter of that size (supplied by the scanners below) so that it
reduces in the kernel, and the fuel-exhausted arm is unreachable. -/
def matchToks : Nat → List RTok → List Char → Option Char × Option Char →
    Option (Nat × (Option Char × Option Char))
  | 0, _, _, _ => none
  | _ + 1, [], _, cp => some (0, cp)
  | fuel + 1, .atEnd :: ts, s, cp => if s.isEmpty then matchToks fuel ts s cp else none
  | fuel + 1, .cls neg cs cap :: ts, s, cp =>
    match s with
    | [] => none
    | c :: s' =>
      if classOk neg cs c then
        (matchToks fuel ts s' (setCap cap c cp)).map (fun r => (r.1 + 1, r.2))
      else none
  | fuel + 1, .bref i :: ts, s, cp =>
    match getCap i cp with
    | none => matchToks fuel ts s cp
    | some c =>
      match s with
      | [] => none
      | c' :: s' =>
        if c' = c then (matchToks fuel ts s' cp).map (fun r => (r.1 + 1, r.2)) else none
  | fuel + 1, .star neg cs :: ts, s, cp =>
    match matchToks fuel ts s cp with
    | some r => some r
    | none =>
      match s with
      | [] => none
      | c :: s' =>
        if classOk neg cs c then
          (matchToks fuel (.star neg cs :: ts) s' cp).map (fun r => (r.1 + 1, r.2))
        else none

/-- Fuel bound for `matchToks` on token list `toks` and input `s`. -/
def matchFuel (toks : List RTok) (s : List Char) : Nat :=
  (s.length + 1) * (toks.length + 1)

/-- All matches of an unanchored expression, in `exec`-with-`g` order: find
the leftmost match, record its captures, and resume scanning right after the
consumed characters (the expressions below always consume at least one
character).  Structurally recursive on a fuel counter supplied with the
input length by `scanAllTop`; every step consumes at least one character. -/
def scanAll (toks : List RTok) : Nat → List Char → List (Option Char × Option Char)
  | _, [] =>
    match matchToks (matchFuel toks []) toks [] (none, none) with
    | some r => [r.2]
    | none => []
  | 0, _ => []
  | fuel + 1, c :: rest =>
    match matchToks (matchFuel toks (c :: rest)) toks (c :: rest) (none, none) with
    | some r => r.2 :: scanAll toks fuel (List.drop (max r.1 1 - 1) rest)
    | none => scanAll toks fuel rest

/-- All matches of an unanchored expression over a whole sample. -/
def scanAllTop (toks : List RTok) (s : List Char) : List (Option Char × Option Char) :=
  scanAll toks s.length s

/-- All matches of a `^`-anchored expression (no `m` flag): the expression
can only match at position 0, so there is at most one match. -/
def scanAnchored (toks : List RTok) (s : List Char) :
    List (Option Char × Option Char) :=
  match matchToks (matchFuel toks s) toks s (none, none) with
  | some r => [r.2]
  | none => []

/-- The whitespace class `\s` (ASCII subset plus NBSP, as in `isJsWs`). -/
def wsChars : List Char := [' ', '\t', '\n', '\r', '\x0b', '\x0c', '\xa0']

/-- Expression 1, `([^nl"'])\s*?(["'])[^nl]*?\2\s*?\1`: delimiter on both
sides of a quoted block.  `nlCs` are the characters of the newline string
(the source escapes them into the character classes). -/
def toksBoth (nlCs : List Char) : List RTok :=
  [.cls true ('"' :: '\'' :: nlCs) 1, .star false wsChars,
   .cls false ['"', '\''] 2, .star true nlCs, .bref 2,
   .star false wsChars, .bref 1]

/-- Expression 2, `^\s*?(["'])[^nl]*?\1\s*?([^nl"'])`: quoted block at the
start of the sample, delimiter after (delimiter is group 2, quote group 1). -/
def toksRight (nlCs : List Char) : List RTok :=
  [.star false wsChars, .cls false ['"', '\''] 1, .star true nlCs, .bref 1,
   .star false wsChars, .cls true ('"' :: '\'' :: nlCs) 2]

/-- Expression 3, `([^nl"'])\s*?(["'])[^nl]*?\2\s*?$`: delimiter before a
quoted block that ends the sample. -/
def toksLeft (nlCs : List Char) : List RTok :=
  [.cls true ('"' :: '\'' :: nlCs) 1, .star false wsChars,
   .cls false ['"', '\''] 2, .star true nlCs, .bref 2,
   .star false wsChars, .atEnd]

/-- Expression 4, `^\s*?(["'])[^nl]*?\1\s*?$`: a quoted block spanning the
whole sample; only the quote is captured. -/
def toksQuoteOnly (nlCs : List Char) : List RTok :=
  [.star false wsChars, .cls false ['"', '\''] 1, .star true nlCs, .bref 1,
   .star false wsChars, .atEnd]

/-- One match record of the guesser: the delimiter and quote captures. -/
structure QDMatch where
  delim : Option Char
  quote : Option Char
deriving DecidableEq

/-- Run the four expressions in priority order, keeping the matches of the
first one that produced any (the source's `every` loop). -/
def collectMatches (sample nlCs : List Char) : List QDMatch :=
  let m1 := (scanAllTop (toksBoth nlCs) sample).map (fun cp => (⟨cp.1, cp.2⟩ : QDMatch))
  if m1 ≠ [] then m1
  else
    let m2 := (scanAnchored (toksRight nlCs) sample).map (fun cp => (⟨cp.2, cp.1⟩ : QDMatch))
    if m2 ≠ [] then m2
    else
      let m3 := (scanAllTop (toksLeft nlCs) sample).map (fun cp => (⟨cp.1, cp.2⟩ : QDMatch))
      if m3 ≠ [] then m3
      else (scanAnchored (toksQuoteOnly nlCs) sample).map (fun cp => (⟨none, cp.1⟩ : QDMatch))

/-- Insertion-ordered counter bump (JavaScript object keys preserve insertion
order, and the winner scan below visits them in that order). -/
def bumpCounter (m : List (Char × Nat)) (c : Char) : List (Char × Nat) :=
  if m.any (fun p => p.1 = c) then
    m.map (fun p => if p.1 = c then (p.1, p.2 + 1) else p)
  else m ++ [(c, 1)]

/-- One step of the winner scan over a counter: keep the first strictly
greater count (`maxCount` starts below every real count in the source, so
the first entry always replaces the initial state). -/
def cwStep (acc : Option (Char × Nat)) (p : Char × Nat) : Option (Char × Nat) :=
  match acc with
  | none => some p
  | some b => if p.2 > b.2 then some p else some b

/-- The key with the strictly highest count, first-inserted wins ties. -/
def counterWinner (m : List (Char × Nat)) : Option Char :=
  (m.foldl cwStep none).map (fun p => p.1)

/-- One step of the delimiter tally: count a match's delimiter capture when
it exists and lies in the allowed set (when a set was supplied). -/
def dcStep (delimiters : Option (List Char)) (m : List (Char × Nat)) (qd : QDMatch) :
    List (Char × Nat) :=
  match qd.delim with
  | some d =>
    if (match delimiters with | none => true | some ds => ds.contains d) then
      bumpCounter m d
    else m
  | none => m

/-- `guessQuoteAndDelimiter(sample, newlineStr, delimiters)`: tally the
delimiter captures (filtered by the allowed set) and the quote captures of
the collected matches; the delimiter and quote with the most votes win; a
winning delimiter equal to `\n` is discarded (probable one-column file). -/
def guessQuoteAndDelimiter (sample newlineStr : String)
    (delimiters : Option (List Char)) : QDMatch :=
  let ms := collectMatches sample.data newlineStr.data
  if ms = [] then ⟨none, none⟩
  else
    let delimCounters := ms.foldl (dcStep delimiters) []
    let quoteCounters := ms.foldl
      (fun m qd => match qd.quote with | some q => bumpCounter m q | none => m) []
    let delim0 := counterWinner delimCounters
    let quote := counterWinner quoteCounters
    let delim := if delim0 = some '\n' then none else delim0
    ⟨delim, quote⟩

/-! ## The `sniff` orchestrator -/

/-- Caller options for `sniff`.  For `delimiter` and `quoteChar` the outer
`Option` distinguishes `undefined` (absent) from a supplied value, and the
inner `Option` is a supplied `null`.  For `newlineStr` the source only checks
truthiness; for `hasHeader` it compares against `undefined` with `==`
(supplied booleans are used as-is). -/
structure SniffOptions where
  newlineStr : Option String
  delimiter : Option (Option String)
  quoteChar : Option (Option String)
  hasHeader : Option Bool
deriving DecidableEq

/-- The result object of `sniff`. -/
structure SniffResult where
  warnings : List String
  newlineStr : String
  delimiter : Option String
  quoteChar : Option String
  hasHeader : Bool
  types : List TypeTag
  labels : Option (List String)
  records : List (List String)
deriving DecidableEq

/-- Flatten a JavaScript option field: `undefined` and `null` both read back
as a falsy/absent value for `result.delimiter`. -/
def optFlat : Option (Option String) → Option String
  | none => none
  | some v => v

/-- JavaScript falsiness of `result.delimiter`-like values: `null`/`undefined`
or the empty string. -/
def strFalsy : Option String → Bool
  | none => true
  | some s => s = ""

/-- String coercion used when concatenating a possibly-`null` value into the
delimiter-mismatch warning. -/
def jsShow : Option String → String
  | none => "null"
  | some s => s

/-- `result.newlineStr = options.newlineStr || getNewlineStr(sample)`: a falsy
supplied value (absent or the empty string) falls back to auto-detection. -/
def resolveNewline (sample : String) (options : SniffOptions) : Option String :=
  match options.newlineStr with
  | some s => if s = "" then getNewlineStr sample else some s
  | none => getNewlineStr sample

/-- Assembly of the final result object: `labels` is row 0 when a header was
detected and the parsed table is nonempty, else `null`; `records` is the
parsed table, with row 0 shifted off when a header was detected and the table
is nonempty. -/
def assembleResult (warnings : List String) (newlineStr : String)
    (delimiter : Option String) (quoteChar : Option String) (hH : Bool)
    (types : List TypeTag) (parsed : List (List String)) : SniffResult :=
  ⟨warnings, newlineStr, delimiter, quoteChar, hH, types,
   if hH ∧ parsed ≠ [] then parsed.head? else none,
   if hH ∧ parsed ≠ [] then parsed.tail else parsed⟩

/-- The body of `sniff` after the newline string has been resolved (the
source throws before this point when no newline was found).
`quoteChar`/`delimiter` resolution: when `options.quoteChar` is absent the
pattern guesser runs; its delimiter is adopted only when it found a delimiter
and a quote that is exactly `'` or `"`, and only when the caller supplied no
delimiter — a differing supplied delimiter is kept and produces a warning.
A still-falsy delimiter then falls back to the frequency guesser. -/
def sniffCore (delims : Option (List Char)) (sample : String) (options : SniffOptions)
    (newlineStr : String) : SniffResult :=
  let d0 := optFlat options.delimiter
  let qres : Option String × Option String × List String :=
    match options.quoteChar with
    | some v => (v, d0, [])
    | none =>
      let qd := guessQuoteAndDelimiter sample newlineStr delims
      match qd.delim, qd.quote with
      | some gd, some gq =>
        if gq = '\'' ∨ gq = '"' then
          match options.delimiter with
          | none => (some (String.singleton gq), some (String.singleton gd), [])
          | some ud =>
            if ud ≠ some (String.singleton gd) then
              (some (String.singleton gq), d0,
               ["Difference found in delimiters. User proposed " ++ jsShow ud ++
                " but we believe it should be " ++ String.singleton gd])
            else (some (String.singleton gq), d0, [])
        else (none, d0, [])
      | _, _ => (none, d0, [])
  let quoteChar := qres.1
  let d1 := qres.2.1
  let warnings := qres.2.2
  let delimiter :=
    if strFalsy d1 then (guessDelimiter sample newlineStr delims).map String.singleton
    else d1
  let parsed := parseSample sample newlineStr delimiter quoteChar
  let hres : Bool × List TypeTag :=
    match options.hasHeader with
    | none =>
      let hd := hasHeader parsed
      (hd.hasHeader, hd.types)
    | some b => (b, if b then (getTypes parsed).tail else (getTypes parsed).all)
  assembleResult warnings newlineStr delimiter quoteChar hres.1 hres.2 parsed

/-- `CSVSniffer.prototype.sniff(sample, options)`, for a sniffer constructed
with the allowed delimiter set `delims`.  Throws (models as `Except.error`)
when no newline string could be resolved. -/
def sniff (delims : Option (List Char)) (sample : String) (options : SniffOptions) :
    Except String SniffResult :=
  match resolveNewline sample options with
  | none => .error "No newline characters found in your file..."
  | some newlineStr => .ok (sniffCore delims sample options newlineStr)

/-! ## Claims -/

/-- C1: for the sample `"a,b,c\n1,2,3\n4,5,6\n"` with no options, `sniff`
returns `newlineStr = "\n"`, `delimiter = ","`, `quoteChar = null`,
`hasHeader = true`, `types = [integer, integer, integer]`,
`labels = ["a", "b", "c"]` and `records = [["1","2","3"], ["4","5","6"]]`
(with no warnings). -/
theorem sniff_concrete_basic :
    sniff none "a,b,c\n1,2,3\n4,5,6\n" ⟨none, none, none, none⟩ =
      .ok ⟨[], "\n", some ",", none, true, [.integer, .integer, .integer],
           some ["a", "b", "c"], [["1", "2", "3"], ["4", "5", "6"]]⟩ := by
  with_unfolding_all rfl

/-- C7: the type accumulation is monotone on the lattice
`integer < float < string`: one step never decreases the rank of the
accumulated type, and hence a fold over any sequence of field values never
moves the accumulated type backward. -/
theorem getAccumulatedType_monotone :
    (∀ (v : String) (t : TypeTag), t.rank ≤ (getAccumulatedType v t).rank) ∧
    (∀ (vs : List String) (t : TypeTag),
      t.rank ≤ (vs.foldl (fun acc v => getAccumulatedType v acc) t).rank) := by
  have h1 : ∀ (v : String) (t : TypeTag), t.rank ≤ (getAccumulatedType v t).rank := by
    intro v t
    cases t with
    | integer => exact Nat.zero_le _
    | float => cases hj : jsToNumber v <;> simp [getAccumulatedType, hj, TypeTag.rank]
    | string => simp [getAccumulatedType, TypeTag.rank]
  refine ⟨h1, ?_⟩
  intro vs
  induction vs with
  | nil => intro t; exact Nat.le_refl _
  | cons v vs ih =>
    intro t
    simpa only [List.foldl_cons] using Nat.le_trans (h1 v t) (ih (getAccumulatedType v t))

/-- C10: `getAccumulatedType` classifies the empty string — and any
whitespace-only string — as a finite number with zero fractional part, so it
never weakens the accumulated type: for every tag `t`, both the empty string
and the whitespace-only field return `t` unchanged. -/
theorem getAccumulatedType_empty_string (t : TypeTag) (s : String)
    (h : s.data.all isJsWs = true) :
    getAccumulatedType "" t = t ∧ getAccumulatedType s t = t := by
  have hts : jsTrim s.data = [] := by
    unfold jsTrim
    have h1 : s.data.dropWhile isJsWs = [] := by
      rw [List.dropWhile_eq_nil_iff]
      intro x hx
      exact List.all_eq_true.mp h x hx
    simp [h1]
  have hnum : jsToNumber s = .fin 0 := by
    unfold jsToNumber
    rw [hts]
  have hden : (0 : ℚ).den = 1 := rfl
  constructor
  · cases t <;> with_unfolding_all rfl
  · cases t <;> simp [getAccumulatedType, hnum, hden]

/-- Witness for C10 at the concrete tag `integer` and the one-space field. -/
theorem getAccumulatedType_empty_string_witness :
    getAccumulatedType "" TypeTag.integer = TypeTag.integer ∧
    getAccumulatedType " " TypeTag.integer = TypeTag.integer :=
  getAccumulatedType_empty_string TypeTag.integer " " (by decide)

/-- Invariant of the instrumented quoted parser: every emitted row's field
count, plus one when its final field was empty (and therefore popped), equals
one plus the number of unescaped, unquoted delimiter occurrences consumed for
that row.  The running row always holds exactly as many closed fields as
delimiters seen. -/
theorem parseQuotedAuxI_field_count (nl : List Char) (d : Option String) (q : String) :
    ∀ (s : List Char) (vals : List String) (cv : List Char) (k : Nat) (iq esc : Bool),
      vals.length = k →
      ∀ x ∈ parseQuotedAuxI nl d q s vals cv k iq esc,
        x.1.length + (if x.2.2 then 1 else 0) = x.2.1 + 1 := by
  intro s
  induction s with
  | nil =>
    intro vals cv k iq esc hlen x hx
    simp [parseQuotedAuxI] at hx
  | cons c rest ih =>
    intro vals cv k iq esc hlen x hx
    simp only [parseQuotedAuxI] at hx
    split at hx
    · exact ih vals (cv ++ [c]) k iq false hlen x hx
    · split at hx
      · exact ih vals cv k iq true hlen x hx
      · split at hx
        · exact ih vals cv k (!iq) false hlen x hx
        · split at hx
          · rcases List.mem_cons.mp hx with hx | hx
            · subst hx
              by_cases hcv : cv = [] <;> simp [hcv, hlen]
            · exact ih [] [] 0 iq false rfl x hx
          · split at hx
            · exact ih (vals ++ [(⟨cv⟩ : String)]) [] (k + 1) iq false
                (by simp [hlen]) x hx
            · exact ih vals (cv ++ [c]) k iq false hlen x hx

/-- C4 counterexample: in the sample `"a,,\n"` parsed with newline `\n`,
delimiter `,` and quote `'`, the single emitted row contains two unescaped,
unquoted delimiters but only two fields — the parser pops the empty field
closed at the newline — refuting the claimed `fields = 1 + delimiters`. -/
theorem parseSample_field_count_counterexample :
    ¬ (∀ x ∈ parseSampleI "a,,\n" "\n" (some ",") "'", x.1.length = x.2.1 + 1) := by
  decide

/-- C4 amended: for every sample, newline string, delimiter and non-null
(nonempty) quote character, the rows of `parseSample` are the rows of the
instrumented scan, and every such row's field count equals one plus the
number of unescaped, unquoted delimiter occurrences in that row, minus one
exactly when the row's final field was empty (the parser drops a trailing
empty field). -/
theorem parseSample_field_count (sample newlineStr : String) (delimiter : Option String)
    (q : String) (hq : q ≠ "") :
    parseSample sample newlineStr delimiter (some q) =
      (parseSampleI sample newlineStr delimiter q).map (fun x => x.1) ∧
    ∀ x ∈ parseSampleI sample newlineStr delimiter q,
      x.1.length + (if x.2.2 then 1 else 0) = x.2.1 + 1 := by
  constructor
  · simp [parseSample, hq]
  · exact parseQuotedAuxI_field_count newlineStr.data delimiter q sample.data [] [] 0
      false false rfl

/-- Witness for C4's amended claim at a concrete sample. -/
theorem parseSample_field_count_witness :
    parseSample "a,b\n" "\n" (some ",") (some "'") =
      (parseSampleI "a,b\n" "\n" (some ",") "'").map (fun x => x.1) ∧
    ∀ x ∈ parseSampleI "a,b\n" "\n" (some ",") "'",
      x.1.length + (if x.2.2 then 1 else 0) = x.2.1 + 1 :=
  parseSample_field_count "a,b\n" "\n" (some ",") "'" (by decide)

/-- The per-column vote of the header voter, factored out of `hasHeader`'s
loop body (code side, including the NaN branch for empty tail lengths). -/
def hhColVote (firstValues : List String) (rest : List (List String)) (i : Nat) : Int :=
  let types := getTypes (firstValues :: rest)
  if types.first.getD i .integer ≠ types.tail.getD i .integer ∧
      types.first.getD i .integer = .string then
    2
  else
    let lens := colTailLengths firstValues rest i
    if lens.length = 0 then -1
    else
      let avg : ℚ := (lens.map (fun d => (d : ℚ))).sum / (lens.length : ℚ)
      let sd : ℚ :=
        (lens.map (fun d => (avg - (d : ℚ)) * (avg - (d : ℚ)))).sum / (lens.length : ℚ)
      let tolerance := 2 * sd
      if |((firstValues.getD i "").length : ℚ) - avg| > tolerance then 1 else -1

/-- C3's reading of one column's vote, stated as in the specification: +2 on
a string-typed header cell over a differently-typed tail; otherwise +1 when
the header field length deviates from the mean of the tail field-lengths by
more than twice their variance, else −1. -/
def specColVote (headerField : String) (firstTy tailTy : TypeTag) (lens : List Nat) : Int :=
  if firstTy ≠ tailTy ∧ firstTy = .string then 2
  else
    let mean : ℚ := (lens.map (fun d => (d : ℚ))).sum / (lens.length : ℚ)
    let variance : ℚ := (lens.map (fun d => ((d : ℚ) - mean) ^ 2)).sum / (lens.length : ℚ)
    if |(headerField.length : ℚ) - mean| > 2 * variance then 1 else -1

/-- C3's total vote: the sum over the columns of row 0 of the per-column
specification votes. -/
def specTotalVote (firstValues : List String) (rest : List (List String)) : Int :=
  ((List.range firstValues.length).map (fun i =>
    specColVote (firstValues.getD i "")
      ((getTypes (firstValues :: rest)).first.getD i .integer)
      ((getTypes (firstValues :: rest)).tail.getD i .integer)
      (colTailLengths firstValues rest i))).sum

/-- Folding `+ f i` over a list is adding the sum of the image. -/
theorem foldl_add_eq_sum (f : Nat → Int) (l : List Nat) (v : Int) :
    l.foldl (fun a i => a + f i) v = v + (l.map f).sum := by
  induction l generalizing v with
  | nil => simp
  | cons x xs ih => simp only [List.foldl_cons, List.map_cons, List.sum_cons, ih]; ring


/-- Folding a vote accumulator that adds a per-column contribution is adding
the sum of the contributions. -/
theorem foldl_vote_eq_sum (F : Int → Nat → Int) (g : Nat → Int)
    (hF : ∀ v i, F v i = v + g i) (l : List Nat) (v : Int) :
    l.foldl F v = v + (l.map g).sum := by
  induction l generalizing v with
  | nil => simp
  | cons x xs ih => simp only [List.foldl_cons, List.map_cons, List.sum_cons, hF, ih]; ring

/-- C3: when every column has at least one tail field-length (so the mean and
variance the claim speaks of exist), each column of row 0 contributes exactly
one vote — +2 when its first-row type differs from its tail type and the
first-row type is string, otherwise +1 when the header field length deviates
from the mean of the column's tail field-lengths by more than `2 × variance`
and −1 otherwise — `hasHeader` reports `total vote > 0`, and the returned
profile is `tail` on a detected header and `all` otherwise. -/
theorem hasHeader_vote_spec (firstValues : List String) (rest : List (List String))
    (h : ∀ i ∈ List.range firstValues.length, colTailLengths firstValues rest i ≠ []) :
    hasHeader (firstValues :: rest) =
      ⟨if 0 < specTotalVote firstValues rest then (getTypes (firstValues :: rest)).tail
        else (getTypes (firstValues :: rest)).all,
       0 < specTotalVote firstValues rest⟩ := by
  have hsum : ∀ (L : List Nat) (m : ℚ),
      (L.map (fun d => (m - (d : ℚ)) * (m - (d : ℚ)))).sum
        = (L.map (fun d => ((d : ℚ) - m) ^ 2)).sum := by
    intro L m
    apply congrArg
    apply List.map_congr_left
    intro a _
    ring
  have hcv : ∀ i ∈ List.range firstValues.length,
      hhColVote firstValues rest i =
        specColVote (firstValues.getD i "")
          ((getTypes (firstValues :: rest)).first.getD i .integer)
          ((getTypes (firstValues :: rest)).tail.getD i .integer)
          (colTailLengths firstValues rest i) := by
    intro i hi
    have hne : (colTailLengths firstValues rest i).length ≠ 0 := by
      simpa [List.length_eq_zero] using h i hi
    simp only [hhColVote, specColVote, hsum, if_neg hne]
  simp only [hasHeader]
  rw [foldl_vote_eq_sum _ (fun i => hhColVote firstValues rest i) ?hF]
  case hF =>
    intro v i
    simp only [hhColVote]
    split
    · rfl
    · split
      · omega
      · split
        · rfl
        · omega
  rw [List.map_congr_left hcv]
  simp only [specTotalVote, zero_add]

/-- Witness for C3 at a one-column table with one tail row. -/
theorem hasHeader_vote_spec_witness :
    hasHeader (["a"] :: [["1"]]) =
      ⟨if 0 < specTotalVote ["a"] [["1"]] then (getTypes (["a"] :: [["1"]])).tail
        else (getTypes (["a"] :: [["1"]])).all,
       0 < specTotalVote ["a"] [["1"]]⟩ :=
  hasHeader_vote_spec ["a"] [["1"]] (by decide)

/-- When the first character of the separator never occurs in the input, the
split scan finds no separator and yields the input as a single part. -/
theorem jsSplitGo_not_mem (c : Char) (cs : List Char) (l : List Char) :
    ∀ (acc : List Char) (fuel : Nat), c ∉ l →
      jsSplitGo (c :: cs) fuel acc l = [acc.reverse ++ l] := by
  induction l with
  | nil => intro acc fuel _; cases fuel <;> simp [jsSplitGo]
  | cons x rest ih =>
    intro acc fuel h
    have hcx : ¬ c = x := fun hc => h (hc ▸ List.mem_cons_self c rest)
    have hcr : c ∉ rest := fun hc => h (List.mem_cons_of_mem x hc)
    cases fuel with
    | zero => simp [jsSplitGo]
    | succ n =>
      have hpfx : isPfx (c :: cs) (x :: rest) = false := by
        simp [isPfx, hcx]
      simp [jsSplitGo, hpfx, ih (x :: acc) n hcr]

/-- A separator starting with a character absent from the sample splits it
into exactly one part. -/
theorem jsSplit_single (c : Char) (cs : List Char) (s : List Char) (hc : c ∉ s) :
    jsSplit (c :: cs) s = [s] := by
  rw [jsSplit, if_neg (by simp), jsSplitGo_not_mem c cs s [] s.length hc]
  simp

/-- With neither `\n` nor `\r` in the sample, every newline candidate induces
a single line and newline detection finds nothing. -/
theorem getNewlineStr_none (sample : String) (h1 : '\n' ∉ sample.data)
    (h2 : '\r' ∉ sample.data) : getNewlineStr sample = none := by
  simp only [getNewlineStr]
  rw [jsSplit_single '\r' ['\n'] sample.data h2, jsSplit_single '\n' ['\r'] sample.data h1,
    jsSplit_single '\n' [] sample.data h1, jsSplit_single '\r' [] sample.data h2]
  rfl

/-- C2: for every sample containing no `\n` and no `\r` character, newline
detection yields nothing (zero candidate terminators induce more than one
line), and `sniff` called without a `newlineStr` option fails with the
no-newline error, producing no result. -/
theorem sniff_no_newline (delims : Option (List Char)) (sample : String)
    (opts : SniffOptions) (h1 : '\n' ∉ sample.data) (h2 : '\r' ∉ sample.data)
    (h3 : opts.newlineStr = none) :
    getNewlineStr sample = none ∧
    sniff delims sample opts = .error "No newline characters found in your file..." := by
  have hg := getNewlineStr_none sample h1 h2
  refine ⟨hg, ?_⟩
  simp [sniff, resolveNewline, h3, hg]

/-- Witness for C2 at the sample `"abc"`. -/
theorem sniff_no_newline_witness :
    getNewlineStr "abc" = none ∧
    sniff none "abc" ⟨none, none, none, none⟩ =
      .error "No newline characters found in your file..." :=
  sniff_no_newline none "abc" ⟨none, none, none, none⟩ (by decide) (by decide) rfl

/-- C6 (code bug): on a sample where both the space and the comma survive the
consistency loop (each occurs a consistent number of times per line), the
frequency guesser returns the space — the first candidate in ASCII scan
order — although the source's preference list `[",", "\t", ";", " ", ":",
"|"]` names the comma first: the `return` inside the preference `forEach`
only exits the callback, so the loop has no effect. -/
theorem guessDelimiter_preference_dead :
    guessDelimiter "a b,c d\ne f,g h\n" "\n" none = some ' ' ∧
    guessDelimiter "a b,c d\ne f,g h\n" "\n" none ≠ some ',' := by
  constructor
  · with_unfolding_all rfl
  · intro hc
    have : some ' ' = some ',' := by
      rw [← hc]
      with_unfolding_all rfl
    simp at this

/-- Every candidate of one consistency round lies in the supplied allowed
delimiter set. -/
theorem gdRound_mem_allowed (modes : List (Nat × Nat × Int)) (nrLines : Nat)
    (ds : List Char) (k : Nat) :
    ∀ c ∈ gdRound modes nrLines (some ds) k, c ∈ ds := by
  intro c hc
  simp only [gdRound, List.mem_filterMap] at hc
  obtain ⟨m, _, he⟩ := hc
  split at he
  · exact absurd he (by simp)
  · split at he
    · rename_i hcond
      injection he with he
      subst he
      have hmem : ds.contains (Char.ofNat m.1) = true :=
        ((Bool.and_eq_true _ _).mp hcond).2
      simpa using hmem
    · exact absurd he (by simp)

theorem gdDelims_mem_allowed (modes : List (Nat × Nat × Int)) (nrLines : Nat)
    (ds : List Char) :
    ∀ c ∈ gdDelims modes nrLines (some ds), c ∈ ds := by
  intro c hc
  unfold gdDelims at hc
  cases hf : ((List.range 20).map (gdRound modes nrLines (some ds))).find?
      (fun l => l ≠ []) with
  | none => rw [hf] at hc; simp at hc
  | some l =>
    rw [hf] at hc
    have hl := List.mem_of_find?_eq_some hf
    obtain ⟨k, _, hk⟩ := List.mem_map.mp hl
    subst hk
    exact gdRound_mem_allowed modes nrLines ds k c hc

theorem guessDelimiter_allowed (sample newlineStr : String) (ds : List Char) :
    ∀ c, guessDelimiter sample newlineStr (some ds) = some c → c ∈ ds := by
  intro c hc
  simp only [guessDelimiter] at hc
  split at hc
  · exact absurd hc (by simp)
  · split at hc
    · exact absurd hc (by simp)
    · rename_i d heq
      injection hc with hc
      subst hc
      exact gdDelims_mem_allowed _ _ ds d (by rw [heq]; exact List.mem_singleton_self d)
    · rename_i d hd tl heq
      injection hc with hc
      subst hc
      exact gdDelims_mem_allowed _ _ ds d (by rw [heq]; exact List.mem_cons_self d _)

theorem bumpCounter_key (m : List (Char × Nat)) (c : Char) :
    ∀ p ∈ bumpCounter m c, p.1 = c ∨ ∃ q ∈ m, p.1 = q.1 := by
  intro p hp
  unfold bumpCounter at hp
  split at hp
  · obtain ⟨q, hq, he⟩ := List.mem_map.mp hp
    right
    refine ⟨q, hq, ?_⟩
    split at he
    · rw [← he]
    · rw [← he]
  · rcases List.mem_append.mp hp with h | h
    · right; exact ⟨p, h, rfl⟩
    · left
      simp only [List.mem_singleton] at h
      rw [h]

theorem dcFold_keys (ds : List Char) (ms : List QDMatch) :
    ∀ (m0 : List (Char × Nat)), (∀ p ∈ m0, p.1 ∈ ds) →
      ∀ p ∈ ms.foldl (dcStep (some ds)) m0, p.1 ∈ ds := by
  induction ms with
  | nil => intro m0 h0 p hp; exact h0 p hp
  | cons qd ms ih =>
    intro m0 h0 p hp
    simp only [List.foldl_cons] at hp
    refine ih (dcStep (some ds) m0 qd) ?_ p hp
    intro q hq
    unfold dcStep at hq
    split at hq
    · rename_i d hd
      split at hq
      · rename_i hcond
        rcases bumpCounter_key m0 d q hq with h | ⟨r, hr, he⟩
        · rw [h]
          simpa using hcond
        · exact he ▸ h0 r hr
      · exact h0 q hq
    · exact h0 q hq

theorem cwFold_mem (m : List (Char × Nat)) :
    ∀ (acc : Option (Char × Nat)) (q : Char × Nat),
      m.foldl cwStep acc = some q → q ∈ m ∨ acc = some q := by
  induction m with
  | nil => intro acc q h; right; exact h
  | cons p ps ih =>
    intro acc q h
    simp only [List.foldl_cons] at h
    rcases ih (cwStep acc p) q h with hq | hq
    · left; exact List.mem_cons_of_mem _ hq
    · cases acc with
      | none =>
        left
        injection hq with hq
        rw [← hq]
        exact List.mem_cons_self _ _
      | some b =>
        simp only [cwStep] at hq
        split at hq
        · left
          injection hq with hq
          rw [← hq]
          exact List.mem_cons_self _ _
        · right; exact hq

theorem counterWinner_mem (m : List (Char × Nat)) (c : Char) :
    counterWinner m = some c → ∃ p ∈ m, p.1 = c := by
  intro h
  unfold counterWinner at h
  cases hf : m.foldl cwStep none with
  | none => rw [hf] at h; simp at h
  | some q =>
    rw [hf] at h
    simp only [Option.map_some'] at h
    injection h with h
    rcases cwFold_mem m none q hf with hq | hq
    · exact ⟨q, hq, h⟩
    · exact absurd hq (by simp)

theorem guessQuoteAndDelimiter_allowed (sample newlineStr : String) (ds : List Char) :
    ∀ c, (guessQuoteAndDelimiter sample newlineStr (some ds)).delim = some c → c ∈ ds := by
  intro c hc
  simp only [guessQuoteAndDelimiter] at hc
  split at hc
  · exact absurd hc (by simp)
  · split at hc
    · exact absurd hc (by simp)
    · rename_i hw
      have := counterWinner_mem _ c hc
      obtain ⟨p, hp, hpc⟩ := this
      have := dcFold_keys ds (collectMatches sample.data newlineStr.data) [] (by simp) p hp
      exact hpc ▸ this

/-- C8: for every allowed-delimiter set supplied at construction and every
sample, an auto-detected delimiter — from the frequency-based guesser or
from the pattern-based guesser — is always a member of that set (or null):
a character outside the set is never proposed. -/
theorem guessers_respect_allowed (sample newlineStr : String) (ds : List Char) :
    (∀ c, guessDelimiter sample newlineStr (some ds) = some c → c ∈ ds) ∧
    (∀ c, (guessQuoteAndDelimiter sample newlineStr (some ds)).delim = some c → c ∈ ds) :=
  ⟨guessDelimiter_allowed sample newlineStr ds,
   guessQuoteAndDelimiter_allowed sample newlineStr ds⟩

/-- Witness for C8: both guessers produce `,` on concrete samples with the
allowed set `[',']`, and the theorem places it in the set. -/
theorem guessers_respect_allowed_witness :
    guessDelimiter "a,b\nc,d\n" "\n" (some [',']) = some ',' ∧
    (guessQuoteAndDelimiter ",'x',\n" "\n" (some [','])).delim = some ',' ∧
    ',' ∈ [','] ∧ ',' ∈ [','] :=
  ⟨by with_unfolding_all rfl, by with_unfolding_all rfl,
   (guessers_respect_allowed "a,b\nc,d\n" "\n" [',']).1 ',' (by with_unfolding_all rfl),
   (guessers_respect_allowed ",'x',\n" "\n" [',']).2 ',' (by with_unfolding_all rfl)⟩

/-- C9 counterexample: supplying all four options with a `null` delimiter
(legal per the claim) does not reproduce the null — the falsy delimiter is
re-auto-detected, and the result carries `","`. -/
theorem sniff_null_delimiter_overridden :
    sniff none "a,b\nc,d\n" ⟨some "\n", some none, some none, some false⟩ =
      .ok ⟨[], "\n", some ",", none, false, [.string, .string], none,
           [["a", "b"], ["c", "d"]]⟩ ∧
    (some "," : Option String) ≠ none := by
  exact ⟨by with_unfolding_all rfl, by simp⟩

/-- C9 amended: when all four options are supplied with a truthy (nonempty)
`newlineStr`, a non-null nonempty `delimiter`, any `quoteChar` (including
null) and a boolean `hasHeader`, the result reproduces exactly those four
values, with no warnings; a null (or empty) supplied delimiter is instead
re-auto-detected. -/
theorem sniff_supplied_options_kept (delims : Option (List Char)) (sample : String)
    (nls ds : String) (qc : Option String) (b : Bool) (h1 : nls ≠ "") (h2 : ds ≠ "") :
    ∃ r, sniff delims sample ⟨some nls, some (some ds), some qc, some b⟩ = .ok r ∧
      r.newlineStr = nls ∧ r.delimiter = some ds ∧ r.quoteChar = qc ∧
      r.hasHeader = b ∧ r.warnings = [] := by
  refine ⟨sniffCore delims sample ⟨some nls, some (some ds), some qc, some b⟩ nls,
    ?_, ?_, ?_, ?_, ?_, ?_⟩ <;>
    simp [sniff, resolveNewline, sniffCore, assembleResult, optFlat, strFalsy, h1, h2]

/-- Witness for C9's amended claim at concrete options. -/
theorem sniff_supplied_options_kept_witness :
    ∃ r, sniff none "a\nb\n" ⟨some "\n", some (some ","), some (some "'"), some true⟩ =
        .ok r ∧
      r.newlineStr = "\n" ∧ r.delimiter = some "," ∧ r.quoteChar = some "'" ∧
      r.hasHeader = true ∧ r.warnings = [] :=
  sniff_supplied_options_kept none "a\nb\n" "\n" "," (some "'") true (by decide) (by decide)

/-- C5 counterexample: with a supplied `hasHeader = true` and a quote
character, the sample `"abc"` parses to an empty table, so the result has
`records.length + 1 = 1` although zero rows were parsed — and `labels` is
null although `hasHeader` is true. -/
theorem sniff_header_removal_counterexample :
    sniff none "abc" ⟨some "\n", some (some ","), some (some "'"), some true⟩ =
      .ok ⟨[], "\n", some ",", some "'", true, [], none, []⟩ ∧
    ¬ ((0 : Nat) + 1 = (parseSample "abc" "\n" (some ",") (some "'")).length) := by
  exact ⟨by with_unfolding_all rfl, by decide⟩

/-- Conditioning on a nonempty table is immaterial for the `labels` value. -/
theorem ite_labels_lemma (hH : Bool) (p : List (List String)) :
    (if hH = true ∧ p ≠ [] then p.head? else none) = (if hH = true then p.head? else none) := by
  cases hH <;> cases p <;> simp

/-- Conditioning on a nonempty table is immaterial for the `records` value. -/
theorem ite_records_lemma (hH : Bool) (p : List (List String)) :
    (if hH = true ∧ p ≠ [] then p.tail else p) = (if hH = true then p.tail else p) := by
  cases hH <;> cases p <;> simp

/-- Dropping the head of a nonempty table and counting it again restores the
table's length. -/
theorem records_roundtrip_lemma (hH : Bool) (p : List (List String))
    (hp : p ≠ [] ∨ hH = false) :
    (if hH = true then p.tail else p).length + (if hH = true then 1 else 0) = p.length := by
  cases hH
  · simp
  · cases p
    · rcases hp with hp | hp
      · exact absurd rfl hp
      · exact absurd hp (by simp)
    · simp

/-- C5 amended: in every sniff result, `labels` is the optional head of the
parsed table when `hasHeader` is true (null when the table is empty) and null
otherwise; `records` is the parsed table minus row 0 when `hasHeader` is true
and the full table otherwise; and the round trip
`records.length + (hasHeader ? 1 : 0) = parsed row count` holds whenever the
parsed table is nonempty or no header was detected. -/
theorem sniff_labels_records (delims : Option (List Char)) (sample : String)
    (opts : SniffOptions) (r : SniffResult) (h : sniff delims sample opts = .ok r) :
    r.labels = (if r.hasHeader then
        (parseSample sample r.newlineStr r.delimiter r.quoteChar).head? else none) ∧
    r.records = (if r.hasHeader then
        (parseSample sample r.newlineStr r.delimiter r.quoteChar).tail
      else parseSample sample r.newlineStr r.delimiter r.quoteChar) ∧
    (parseSample sample r.newlineStr r.delimiter r.quoteChar ≠ [] ∨ r.hasHeader = false →
      r.records.length + (if r.hasHeader then 1 else 0) =
        (parseSample sample r.newlineStr r.delimiter r.quoteChar).length) := by
  unfold sniff at h
  cases hnl : resolveNewline sample opts with
  | none => rw [hnl] at h; exact absurd h (by simp)
  | some nl =>
    rw [hnl] at h
    injection h with h
    subst h
    simp only [sniffCore, assembleResult]
    refine ⟨ite_labels_lemma _ _, ite_records_lemma _ _, ?_⟩
    intro hp
    rw [ite_records_lemma]
    exact records_roundtrip_lemma _ _ hp

/-- The concrete sniff result used by the C5 witness. -/
def c5r : SniffResult :=
  ⟨[], "\n", some ",", some "'", false, [.string], none, [["a"], ["b"]]⟩

/-- Witness for C5's amended claim at a concrete sample. -/
theorem sniff_labels_records_witness :
    c5r.labels = (if c5r.hasHeader then
        (parseSample "a\nb\n" c5r.newlineStr c5r.delimiter c5r.quoteChar).head? else none) ∧
    c5r.records = (if c5r.hasHeader then
        (parseSample "a\nb\n" c5r.newlineStr c5r.delimiter c5r.quoteChar).tail
      else parseSample "a\nb\n" c5r.newlineStr c5r.delimiter c5r.quoteChar) ∧
    (parseSample "a\nb\n" c5r.newlineStr c5r.delimiter c5r.quoteChar ≠ [] ∨
        c5r.hasHeader = false →
      c5r.records.length + (if c5r.hasHeader then 1 else 0) =
        (parseSample "a\nb\n" c5r.newlineStr c5r.delimiter c5r.quoteChar).length) :=
  sniff_labels_records none "a\nb\n" ⟨some "\n", some (some ","), some (some "'"), some false⟩
    c5r (by with_unfolding_all rfl)
